import Mathlib

/-!
Verification of the tenant-locations-matcher core: the address
normalization and matching engine (src/src/pages/Index.tsx) and the
multi-provider geocoding orchestrator
(src/src/utils/geocodingUtils/geocoding.ts and its loop variant).

Strings are embedded as lists of characters; JavaScript regular
expression replacements are embedded as specialized scanners that
reproduce the leftmost ordered-alternation semantics of the exact
patterns appearing in the source.  JavaScript floating point numbers
are modeled as exact rationals.
-/

namespace TenantMatcher

/-- Character class of the JavaScript regex word class, ASCII letters,
digits and the underscore. -/
def isWordChar (c : Char) : Bool :=
  c.isAlpha || c.isDigit || c = '_'

/-- Character class of the JavaScript regex whitespace class, restricted
to the common ASCII whitespace characters. -/
def isSpaceJS (c : Char) : Bool :=
  c = ' ' || c = '\t' || c = '\n' || c = '\r' || c = '\x0b' || c = '\x0c'

/-- Case-insensitive character comparison (ASCII), as produced by the
`i` flag on the source regexes. -/
def ciEq (a b : Char) : Bool :=
  a.toUpper = b.toUpper

/-- Match a literal (case-insensitively) at the head of the input,
returning the remaining input on success. -/
def ciLit : List Char → List Char → Option (List Char)
  | [], cs => some cs
  | _ :: _, [] => none
  | p :: ps, c :: cs => if ciEq p c then ciLit ps cs else none

/-- Greedily drop leading whitespace, the semantics of a greedy
whitespace star followed by a non-whitespace literal. -/
def skipSpaces : List Char → List Char
  | [] => []
  | c :: cs => if isSpaceJS c then skipSpaces cs else c :: cs

/-- Greedily take a maximal run of characters satisfying `p`,
returning the run and the rest. -/
def takeRun (p : Char → Bool) : List Char → List Char × List Char
  | [] => ([], [])
  | c :: cs =>
    if p c then
      let r := takeRun p cs
      (c :: r.1, r.2)
    else ([], c :: cs)

/-- A word boundary holds before the current position when the
word-ness of the previous character (none at the string start) differs
from the word-ness of the next character. -/
def boundaryBefore (prev : Option Char) (cs : List Char) : Bool :=
  let pw := match prev with
    | none => false
    | some c => isWordChar c
  let nw := match cs with
    | [] => false
    | c :: _ => isWordChar c
  pw != nw

/-- Try each alternative of an ordered alternation group at the current
position; on a literal match, run the continuation, and on its failure
backtrack to the next alternative, as a JavaScript regex engine does. -/
def tryAlts (k : List Char → Option (List Char)) :
    List (List Char) → List Char → Option (List Char)
  | [], _ => none
  | a :: rest, cs =>
    match ciLit a cs with
    | some cs1 =>
      match k cs1 with
      | some r => some r
      | none => tryAlts k rest cs
    | none => tryAlts k rest cs

/-- Match a sequence of alternation groups separated by greedy
whitespace stars, mirroring the highway patterns of the source, which
all have the shape of literal groups joined by whitespace stars. -/
def matchGroups : List (List (List Char)) → List Char → Option (List Char)
  | [], cs => some cs
  | g :: gs, cs => tryAlts (fun cs1 => matchGroups gs (skipSpaces cs1)) g cs

/-- Tail of every highway pattern: a nonempty digit run followed by a
word boundary.  Returns the digits and the rest. -/
def matchDigitsTail (cs : List Char) : Option (List Char × List Char) :=
  let r := takeRun Char.isDigit cs
  match r.1 with
  | [] => none
  | _ :: _ =>
    match r.2 with
    | [] => some (r.1, [])
    | c :: _ => if isWordChar c then none else some (r.1, r.2)

/-- Attempt one highway pattern (a word boundary, literal alternation
groups joined by whitespace stars, then digits and a word boundary) at
the current position; on success return the replacement text and the
rest of the input.  The replacement of every highway pattern in the
source is a fixed text followed by the captured digits. -/
def tryHighwayAt (groups : List (List (List Char))) (rep : List Char)
    (prev : Option Char) (cs : List Char) : Option (List Char × List Char) :=
  if boundaryBefore prev cs then
    match matchGroups groups cs with
    | none => none
    | some cs1 =>
      match matchDigitsTail cs1 with
      | none => none
      | some (ds, rest) => some (rep ++ ds, rest)
  else none

/-- Replace the first match of a scanner over the input, scanning left
to right, the semantics of `String.replace` with a non-global regex. -/
def replaceFirst
    (tryAt : Option Char → List Char → Option (List Char × List Char)) :
    Option Char → List Char → List Char
  | _, [] => []
  | prev, c :: cs =>
    match tryAt prev (c :: cs) with
    | some (rep, rest) => rep ++ rest
    | none => c :: replaceFirst tryAt (some c) cs

def usAlts : List (List Char) :=
  [['U', 'S'], ['U', '.', 'S', '.'], ['U', ' ', 'S'], ['U', '.', 'S'],
   ['U', 'S', '.']]

def hwyAlts : List (List Char) :=
  [['H', 'W', 'Y'], ['H', 'I', 'G', 'H', 'W', 'A', 'Y'],
   ['H', 'W', 'Y', '.'], ['H', 'I', 'G', 'H', 'W', 'A', 'Y', '.']]

def stateAlts : List (List Char) :=
  [['S', 'T', 'A', 'T', 'E'], ['S', 'T'], ['S', 'T', '.'], ['S', '.']]

def rteAlts : List (List Char) :=
  [['R', 'T', 'E'], ['R', 'O', 'U', 'T', 'E'], ['R', 'T'], ['R', 'D'],
   ['R', 'O', 'A', 'D'], ['H', 'W', 'Y'], ['H', 'I', 'G', 'H', 'W', 'A', 'Y']]

/-- The `processHighways` helper of Index.tsx: three successive
first-occurrence replaces rewriting US-highway, old-US-highway and
state-highway idioms. -/
def processHighways (cs : List Char) : List Char :=
  let r1 := replaceFirst
    (tryHighwayAt [usAlts, hwyAlts] "US HWY ".data) none cs
  let r2 := replaceFirst
    (tryHighwayAt [[['O', 'L', 'D']], usAlts, hwyAlts] "OLD US HWY ".data)
    none r1
  replaceFirst (tryHighwayAt [stateAlts, rteAlts] "STATE HWY ".data) none r2

/-- Take exactly `n` characters satisfying `p`, returning the rest. -/
def takeExact (p : Char → Bool) : Nat → List Char → Option (List Char)
  | 0, cs => some cs
  | _ + 1, [] => none
  | n + 1, c :: cs => if p c then takeExact p n cs else none

/-- After a digit, a word boundary holds when the input is exhausted or
the next character is not a word character. -/
def boundaryAfterDigit : List Char → Bool
  | [] => true
  | c :: _ => !isWordChar c

/-- One attempt of the zip pattern of the source, five digits
optionally followed by a dash and four digits, bracketed by word
boundaries, at the current position. -/
def tryZipAt (prev : Option Char) (cs : List Char) :
    Option (List Char × List Char) :=
  if boundaryBefore prev cs then
    match takeExact Char.isDigit 5 cs with
    | none => none
    | some rest5 =>
      match rest5 with
      | '-' :: r =>
        match takeExact Char.isDigit 4 r with
        | some rest9 =>
          if boundaryAfterDigit rest9 then some ([], rest9)
          else if boundaryAfterDigit rest5 then some ([], rest5) else none
        | none =>
          if boundaryAfterDigit rest5 then some ([], rest5) else none
      | _ => if boundaryAfterDigit rest5 then some ([], rest5) else none
  else none

/-- The zip-removal step of `standardizeAddress`: remove the first
word-bounded five-digit or five-plus-four-digit group anywhere in the
string.  The source regex has no end anchor, so the group need not be
trailing. -/
def removeZip (cs : List Char) : List Char :=
  replaceFirst tryZipAt none cs

/-- Strip a maximal run of trailing commas, the first-occurrence
replace of a comma-plus pattern anchored at the end. -/
def stripTrailingCommas (cs : List Char) : List Char :=
  (cs.reverse.dropWhile (fun c => c = ',')).reverse

/-- Strip one trailing period, the replace of a dot anchored at the
end. -/
def stripTrailingDot (cs : List Char) : List Char :=
  match cs.reverse with
  | '.' :: rest => rest.reverse
  | _ => cs

/-- Helper of `collapseSpaces`: the flag records whether the scanner is
inside a whitespace run whose first character was already emitted. -/
def collapseSpacesAux : Bool → List Char → List Char
  | _, [] => []
  | inRun, c :: cs =>
    if isSpaceJS c then
      if inRun then collapseSpacesAux true cs
      else ' ' :: collapseSpacesAux true cs
    else c :: collapseSpacesAux false cs

/-- Global replacement of maximal whitespace runs by a single space. -/
def collapseSpaces (cs : List Char) : List Char :=
  collapseSpacesAux false cs

/-- JavaScript `trim`: drop whitespace at both ends. -/
def trimJS (cs : List Char) : List Char :=
  ((cs.dropWhile isSpaceJS).reverse.dropWhile isSpaceJS).reverse

/-- Character class of the unit-number token, word characters and the
dash. -/
def isWordDash (c : Char) : Bool :=
  isWordChar c || c = '-'

def unitAlts : List (List Char) :=
  [['S', 'T', 'E'], ['S', 'U', 'I', 'T', 'E'], ['U', 'N', 'I', 'T'],
   ['A', 'P', 'T'], ['#'], ['A', 'P', 'A', 'R', 'T', 'M', 'E', 'N', 'T'],
   ['R', 'O', 'O', 'M'], ['R', 'M'],
   ['B', 'U', 'I', 'L', 'D', 'I', 'N', 'G'], ['B', 'L', 'D', 'G'],
   ['F', 'L', 'O', 'O', 'R'], ['F', 'L']]

/-- Tail of the secondary-unit pattern after the designator literal:
greedy whitespace, an optional hash, a nonempty run of word or dash
characters, then an optional comma. -/
def unitTail (cs : List Char) : Option (List Char) :=
  let cs1 := skipSpaces cs
  let body : List Char → Option (List Char) := fun l =>
    let r := takeRun isWordDash l
    match r.1 with
    | [] => none
    | _ :: _ =>
      match r.2 with
      | ',' :: rest => some rest
      | rest => some rest
  match cs1 with
  | '#' :: cs2 => body cs2
  | _ => body cs1

/-- One attempt of the secondary-unit pattern at the current position.
The source pattern has no word boundary, so the designator may match
inside a longer word. -/
def tryUnitAt (_prev : Option Char) (cs : List Char) :
    Option (List Char × List Char) :=
  match tryAlts unitTail unitAlts cs with
  | some rest => some ([], rest)
  | none => none

/-- The `removeSecondaryUnits` helper of Index.tsx: remove the first
secondary-unit designator and its token, then trim. -/
def removeSecondaryUnits (cs : List Char) : List Char :=
  trimJS (replaceFirst tryUnitAt none cs)

/-- JavaScript `split` on a single-space separator: empty fields are
preserved and the empty string yields one empty field. -/
def splitSpace : List Char → List (List Char)
  | [] => [[]]
  | c :: cs =>
    let r := splitSpace cs
    if c = ' ' then [] :: r
    else
      match r with
      | [] => [[c]]
      | w :: ws => (c :: w) :: ws

/-- Join fields with single spaces, JavaScript `join` with a space. -/
def joinSpace : List (List Char) → List Char
  | [] => []
  | [w] => w
  | w :: ws => w ++ ' ' :: joinSpace ws

/-- The address-suffix replacement table of Index.tsx, in source
order. -/
def addressSuffixes : List (List Char × List Char) :=
  [("STREET".data, "ST".data), ("AVENUE".data, "AVE".data),
   ("BOULEVARD".data, "BLVD".data), ("DRIVE".data, "DR".data),
   ("ROAD".data, "RD".data), ("LANE".data, "LN".data),
   ("PLACE".data, "PL".data), ("COURT".data, "CT".data),
   ("CIRCLE".data, "CIR".data), ("HIGHWAY".data, "HWY".data),
   ("PARKWAY".data, "PKWY".data), ("EXPRESSWAY".data, "EXPY".data),
   ("FREEWAY".data, "FWY".data), ("TURNPIKE".data, "TPKE".data),
   ("SUITE".data, "STE".data), ("APARTMENT".data, "APT".data),
   ("BUILDING".data, "BLDG".data), ("FLOOR".data, "FL".data),
   ("UNIT".data, "UNIT".data), ("ROOM".data, "RM".data)]

/-- The direction abbreviation table of Index.tsx, in source order. -/
def directions : List (List Char × List Char) :=
  [("NORTH".data, "N".data), ("SOUTH".data, "S".data),
   ("EAST".data, "E".data), ("WEST".data, "W".data),
   ("NORTHEAST".data, "NE".data), ("NORTHWEST".data, "NW".data),
   ("SOUTHEAST".data, "SE".data), ("SOUTHWEST".data, "SW".data)]

/-- The street-type variation table of Index.tsx, in source order. -/
def streetTypeVariations : List (List Char × List (List Char)) :=
  [("ST".data, ["STREET".data, "STR".data, "ST.".data]),
   ("AVE".data, ["AVENUE".data, "AV".data, "AVE.".data, "AV.".data]),
   ("BLVD".data,
    ["BOULEVARD".data, "BLVD.".data, "BLV".data, "BL".data, "BLV.".data]),
   ("DR".data, ["DRIVE".data, "DR.".data, "DRV".data, "DRV.".data]),
   ("RD".data, ["ROAD".data, "RD.".data, "R.D.".data]),
   ("LN".data, ["LANE".data, "LN.".data, "LA".data, "LA.".data]),
   ("HWY".data,
    ["HIGHWAY".data, "HIWAY".data, "HIGHWY".data, "HWY.".data, "HY".data,
     "H.W.Y.".data, "US HIGHWAY".data, "US HWY".data, "U.S. HIGHWAY".data,
     "U.S. HWY".data, "U.S.HWY".data]),
   ("PKWY".data,
    ["PARKWAY".data, "PKWY.".data, "PKY".data, "PARKWY".data, "PKWAY".data,
     "PKW".data, "PKW.".data])]

/-- Lookup in an association list of character-list keys. -/
def tableLookup (t : List (List Char × List Char)) (k : List Char) :
    Option (List Char) :=
  match t.find? (fun e => e.1 = k) with
  | some e => some e.2
  | none => none

/-- The `normalizeStreetType` helper of Index.tsx: uppercase the word,
look it up directly in the suffix table, then among the listed
variations, returning the word unchanged when nothing matches. -/
def normalizeStreetType (w : List Char) : List Char :=
  let upper := w.map Char.toUpper
  match tableLookup addressSuffixes upper with
  | some abbr => abbr
  | none =>
    match streetTypeVariations.find? (fun e => upper ∈ e.2) with
    | some e => e.1
    | none => w

/-- One iteration of the word loop of `standardizeAddress`: normalize
the street type, then replace a direction word by its abbreviation. -/
def fixWord (w : List Char) : List Char :=
  let w1 := normalizeStreetType w
  match tableLookup directions w1 with
  | some abbr => abbr
  | none => w1

/-- Global replacement of commas, periods and hashes by spaces. -/
def punctToSpace (cs : List Char) : List Char :=
  cs.map (fun c => if c = ',' || c = '.' || c = '#' then ' ' else c)

/-- The `standardizeAddress` function of src/src/pages/Index.tsx,
translated step by step: empty input short-circuits; uppercase; strip a
trailing period; rewrite highway idioms; remove the first word-bounded
zip-shaped digit group; strip trailing commas; collapse whitespace;
remove a secondary unit (the extracted secondary unit of the source is
stored in an unused local and is omitted); rewrite street types and
directions word by word; replace remaining punctuation by spaces and
collapse whitespace again. -/
def standardizeAddress (s : String) : String :=
  if s = "" then ""
  else
    let cs := s.data.map Char.toUpper
    let cs := stripTrailingDot cs
    let cs := processHighways cs
    let cs := removeZip cs
    let cs := stripTrailingCommas cs
    let cs := collapseSpaces cs
    let cs := removeSecondaryUnits cs
    let cs := joinSpace ((splitSpace cs).map fixWord)
    let cs := trimJS (punctToSpace cs)
    let cs := trimJS (collapseSpaces cs)
    ⟨cs⟩

/-- Adjacent character pairs of a string. -/
def bigrams : List Char → List (Char × Char)
  | [] => []
  | [_] => []
  | a :: b :: rest => (a, b) :: bigrams (b :: rest)

/-- Size of the multiset intersection of two bigram lists: each bigram
of the second list consumes at most one matching bigram of the first. -/
def sharedBigrams : List (Char × Char) → List (Char × Char) → Nat
  | _, [] => 0
  | avail, x :: rest =>
    if x ∈ avail then 1 + sharedBigrams (avail.erase x) rest
    else sharedBigrams avail rest

/-- Modelled from the spec: the bigram similarity of the external
string-similarity library (not part of this repository), described in
the spec as the standard Dice coefficient over character bigrams of the
two full strings, twice the shared-bigram count divided by the sum of
the bigram counts, where strings with length below two are treated as
fully similar if equal and as dissimilar otherwise. -/
def compareTwoStrings (a b : String) : ℚ :=
  if a.length < 2 ∨ b.length < 2 then (if a = b then 1 else 0)
  else
    let ba := bigrams a.data
    let bb := bigrams b.data
    (2 * (sharedBigrams ba bb : ℚ)) / ((ba.length : ℚ) + (bb.length : ℚ))

/-- JavaScript split of a string on a single space, lifted to
strings. -/
def splitTokens (s : String) : List String :=
  (splitSpace s.data).map (fun w => ⟨w⟩)

/-- The `calculateAddressSimilarity` function of Index.tsx: both inputs
are standardized (again, even when the caller already standardized
them), a basic bigram similarity is computed, the space-separated
components are compared order-independently, and the result blends
seven tenths component overlap with three tenths bigram similarity. -/
def calculateAddressSimilarity (address1 address2 : String) : ℚ :=
  let standardized1 := standardizeAddress address1
  let standardized2 := standardizeAddress address2
  let basicSimilarity := compareTwoStrings standardized1 standardized2
  let components1 := splitTokens standardized1
  let components2 := splitTokens standardized2
  let matched := components1.filter (fun comp => components2.contains comp)
  let componentMatchFrac : ℚ :=
    (matched.length : ℚ) / (max components1.length components2.length : ℚ)
  componentMatchFrac * (7 / 10) + basicSimilarity * (3 / 10)

/-- A row of the matching result.  The match type is the string literal
union of the source: "exact", "fuzzy" or "missing". -/
structure MatchRecord where
  address1 : String
  address2 : String
  score : ℚ
  matchType : String
  deriving DecidableEq, Repr

/-- JavaScript `findIndex` over the standardized target list: the first
index whose entry equals the standardized source, or minus one. -/
def findExactIdx (standardized2 : List String) (s : String) : Int :=
  match standardized2.findIdx? (fun addr2 => addr2 = s) with
  | some j => Int.ofNat j
  | none => -1

/-- The fuzzy scan of `matchAddresses`: fold over the indexed target
list, skipping consumed indices, keeping the strictly best score and
its index, starting from score zero and index minus one. -/
def fuzzyStep (s1 : String) (consumed : List Nat) (acc : ℚ × Int)
    (je : Nat × String) : ℚ × Int :=
  if je.1 ∈ consumed then acc
  else
    let score := calculateAddressSimilarity s1 je.2
    if score > acc.1 then (score, Int.ofNat je.1) else acc

def bestFuzzy (s1 : String) (standardized2 : List String)
    (consumed : List Nat) : ℚ × Int :=
  standardized2.enum.foldl (fuzzyStep s1 consumed) (0, -1)

/-- Indexing of the original target list by the best-match index; only
reached with a nonnegative index in the source. -/
def getAt (l : List String) (i : Int) : String :=
  if i < 0 then "" else l.getD i.toNat ""

/-- Add an index to the consumed set. -/
def addConsumed (j : Int) (consumed : List Nat) : List Nat :=
  if j.toNat ∈ consumed then consumed else j.toNat :: consumed

/-- One iteration of the source loop of `matchAddresses` for a single
source address: exact search over the whole standardized target list
first, otherwise the fuzzy scan over unconsumed indices; a best score
of one is recorded as exact, a best score of at least seven tenths as
fuzzy (both consuming the index), anything else as missing with an
empty target and the best score found. -/
def matchStep (addresses2 standardized2 : List String)
    (consumed : List Nat) (a1 s1 : String) : MatchRecord × List Nat :=
  let exactIdx := findExactIdx standardized2 s1
  let best := if exactIdx ≥ 0 then ((1 : ℚ), exactIdx)
              else bestFuzzy s1 standardized2 consumed
  if best.1 = 1 then
    (⟨a1, getAt addresses2 best.2, best.1, "exact"⟩,
     addConsumed best.2 consumed)
  else if best.1 ≥ 7 / 10 then
    (⟨a1, getAt addresses2 best.2, best.1, "fuzzy"⟩,
     addConsumed best.2 consumed)
  else
    (⟨a1, "", best.1, "missing"⟩, consumed)

/-- The source loop of `matchAddresses` over the (original,
standardized) source pairs, threading the consumed set. -/
def matchLoop (addresses2 standardized2 : List String) :
    List (String × String) → List Nat → List MatchRecord × List Nat
  | [], consumed => ([], consumed)
  | p :: ps, consumed =>
    let step := matchStep addresses2 standardized2 consumed p.1 p.2
    let rest := matchLoop addresses2 standardized2 ps step.2
    (step.1 :: rest.1, rest.2)

/-- The consumed set after running the source loop, without the
records. -/
def runConsumed (addresses2 standardized2 : List String) :
    List (String × String) → List Nat → List Nat
  | [], consumed => consumed
  | p :: ps, consumed =>
    runConsumed addresses2 standardized2 ps
      (matchStep addresses2 standardized2 consumed p.1 p.2).2

/-- Leftover records: one per never-consumed target index, in target
order, with empty source, score zero and type missing. -/
def leftoverRecords (addresses2 : List String) (consumed : List Nat) :
    List MatchRecord :=
  addresses2.enum.filterMap
    (fun je =>
      if je.1 ∈ consumed then none
      else some ⟨"", je.2, 0, "missing"⟩)

/-- The source pairs fed to the loop: each source address together with
its standardization. -/
def sourcePairs (addresses1 : List String) : List (String × String) :=
  addresses1.map (fun a => (a, standardizeAddress a))

/-- The `matchAddresses` function of src/src/pages/Index.tsx: both
lists are standardized, each source address is matched in order
(threading the consumed target set), and never-consumed target
addresses are appended as missing records. -/
def matchAddresses (addresses1 addresses2 : List String) :
    List MatchRecord :=
  let standardized2 := addresses2.map standardizeAddress
  let run := matchLoop addresses2 standardized2 (sourcePairs addresses1) []
  run.1 ++ leftoverRecords addresses2 run.2

/-- The consumed target set at the end of a full matching run. -/
def matchConsumed (addresses1 addresses2 : List String) : List Nat :=
  (matchLoop addresses2 (addresses2.map standardizeAddress)
    (sourcePairs addresses1) []).2

/-- A geocoding result, a latitude and longitude pair.  Numbers are
modeled as rationals. -/
def Coords := ℚ × ℚ
deriving DecidableEq, Repr

/-- Outcome of one call of the geocode function of a provider adapter:
a successful pair, a response with no result (the adapter resolves to
null), or a thrown error. -/
inductive Outcome where
  | ok : Coords → Outcome
  | noResult : Outcome
  | errThrow : Outcome
  deriving Repr

/-- A provider of the registry as the orchestrator sees it: a quota
report and the behaviour of its geocode function on each address.  The
behaviour is static over one orchestrator run, modeling adapters whose
answers do not change between the retries of a single run. -/
structure ProviderB where
  quota : Bool
  geocodeFn : String → Outcome

/-- The rotation order: one full cycle of indices starting at `start`,
as visited by the do-while loops of the source. -/
def cycleFrom (n start : Nat) : List Nat :=
  (List.range n).map (fun k => (start + k) % n)

/-- The start index of a cycle, `(lastUsedProviderIndex + 1) %
providers.length` with the cursor ranging over minus one and the valid
indices. -/
def startIndex (n : Nat) (lastUsed : Int) : Nat :=
  (((lastUsed + 1) % (n : Int))).toNat

/-- Quota check of one registry position: the provider at the index
when its quota check passes. -/
def pickProvider (providers : List ProviderB) (i : Nat) :
    Option (ProviderB × Nat) :=
  match providers[i]? with
  | some p => if p.quota then some (p, i) else none
  | none => none

/-- The `getNextAvailableProvider` function of providerRegistry.ts:
walk one full cycle from the successor of the last used index and
return the first provider whose quota check passes, with its index;
none when every provider is out of quota. -/
def getNextAvailableProvider (providers : List ProviderB)
    (lastUsed : Int) : Option (ProviderB × Nat) :=
  if providers.length = 0 then none
  else
    (cycleFrom providers.length
      (startIndex providers.length lastUsed)).findSome?
      (pickProvider providers)

/-- The result of one orchestrator run: the returned coordinates (or
none), the rotation cursor after the run, and the number of times a
geocode function of a provider was invoked. -/
structure GeoRun where
  result : Option Coords
  lastUsed : Int
  attempts : Nat
  deriving DecidableEq, Repr

/-- The recursive `geocodeAddress` of
src/src/utils/geocodingUtils/geocoding.ts: ask the registry for the
next available provider (returning null when there is none), attempt
it, update the cursor and return on success, and on a thrown error or
a null result call itself again.  The fuel argument bounds the
recursion depth of the embedding: none means the source recursion has
not returned within the given number of self-calls. -/
def geocodeAddressRec (providers : List ProviderB) (address : String) :
    Nat → Int → Option GeoRun
  | 0, _ => none
  | fuel + 1, lastUsed =>
    match getNextAvailableProvider providers lastUsed with
    | none => some ⟨none, lastUsed, 0⟩
    | some (p, index) =>
      match p.geocodeFn address with
      | .ok c => some ⟨some c, Int.ofNat index, 1⟩
      | _ =>
        match geocodeAddressRec providers address fuel lastUsed with
        | none => none
        | some r => some ⟨r.result, r.lastUsed, r.attempts + 1⟩

/-- The do-while body of the loop variant of `geocodeAddress`
(src/unnamed/part_004): walk the given rotation order; providers
without quota are skipped, a successful call returns at once and moves
the cursor to that index, a thrown error or null result moves on. -/
def geocodeLoopAux (providers : List ProviderB) (address : String) :
    List Nat → Int → GeoRun
  | [], lastUsed => ⟨none, lastUsed, 0⟩
  | i :: rest, lastUsed =>
    match providers[i]? with
    | none => geocodeLoopAux providers address rest lastUsed
    | some p =>
      if p.quota then
        match p.geocodeFn address with
        | .ok c => ⟨some c, Int.ofNat i, 1⟩
        | _ =>
          let r := geocodeLoopAux providers address rest lastUsed
          ⟨r.result, r.lastUsed, r.attempts + 1⟩
      else geocodeLoopAux providers address rest lastUsed

/-- The loop variant of `geocodeAddress` (src/unnamed/part_004): one
full cycle over the providers starting after the last used index,
returning null with an unchanged cursor when no provider succeeded. -/
def geocodeAddressLoop (providers : List ProviderB) (address : String)
    (lastUsed : Int) : GeoRun :=
  if providers.length = 0 then ⟨none, lastUsed, 0⟩
  else
    geocodeLoopAux providers address
      (cycleFrom providers.length (startIndex providers.length lastUsed))
      lastUsed

/-- JavaScript object insertion `results[address] = coords`: an
existing key keeps its position and gets the new value, a new key is
appended. -/
def recordSet (m : List (String × Coords)) (k : String) (v : Coords) :
    List (String × Coords) :=
  if (m.lookup k).isSome then
    m.map (fun e => if e.1 = k then (e.1, v) else e)
  else m ++ [(k, v)]

/-- One run of the loop body of `batchGeocodeAddresses`: geocode each
address in order with the loop variant of `geocodeAddress`, threading
the rotation cursor; successful coordinates are stored under the
address key and failures leave the map untouched.  Returns the map,
the final cursor and the per-call outcomes in order.  The progress
toast of the source is a user-interface side effect and is omitted. -/
def batchRun (providers : List ProviderB) :
    List String → List (String × Coords) → Int →
    List (String × Coords) × Int × List (String × Option Coords)
  | [], m, lastUsed => (m, lastUsed, [])
  | address :: rest, m, lastUsed =>
    let r := geocodeAddressLoop providers address lastUsed
    let m1 := match r.result with
      | some c => recordSet m address c
      | none => m
    let rec1 := batchRun providers rest m1 r.lastUsed
    (rec1.1, rec1.2.1, (address, r.result) :: rec1.2.2)

/-- The `batchGeocodeAddresses` function
(src/src/utils/geocodingUtils/businessTypes.ts and
src/unnamed/part_004): the returned address-to-coordinates map. -/
def batchGeocodeAddresses (providers : List ProviderB)
    (addresses : List String) (lastUsed : Int) :
    List (String × Coords) :=
  (batchRun providers addresses [] lastUsed).1

/-- The per-call outcomes of a batch run, one entry per input address
in order. -/
def batchOutcomes (providers : List ProviderB) (addresses : List String)
    (lastUsed : Int) : List (String × Option Coords) :=
  (batchRun providers addresses [] lastUsed).2.2

/-! Concrete fixtures used by the evaluation theorems below. -/

/-- Sample address strings of the shapes the tool is built for, each
with at most one zip-shaped digit group and no punctuation attached to
rewritable tokens. -/
def sampleAddresses : List String :=
  ["123 Main St Springfield IL", "789 Elm Rd", "100 Pine Blvd",
   "456 West Oak Avenue Portland OR", "1 US Hwy 30",
   "500 N Washington Blvd Sarasota FL 34236"]

/-- A registry of five providers whose first reports quota and
persistently returns no result while the others are out of quota. -/
def persistentFailPs : List ProviderB :=
  [⟨true, fun _ => .noResult⟩, ⟨false, fun _ => .noResult⟩,
   ⟨false, fun _ => .noResult⟩, ⟨false, fun _ => .noResult⟩,
   ⟨false, fun _ => .noResult⟩]

/-- A registry of two providers: the first out of quota, the second
succeeding with fixed coordinates. -/
def twoPs : List ProviderB :=
  [⟨false, fun _ => .noResult⟩, ⟨true, fun _ => .ok (40, -75)⟩]

/-- A registry whose providers all report exhausted quota. -/
def quotaOutPs : List ProviderB :=
  [⟨false, fun _ => .ok (1, 1)⟩, ⟨false, fun _ => .errThrow⟩,
   ⟨false, fun _ => .noResult⟩]

end TenantMatcher

namespace TenantMatcher

/-! Theorems. -/

/-- C1 counterexample: normalizing the string of two five-digit groups
once leaves the second group, which a second pass then removes, so
normalization is not idempotent on every input. -/
theorem standardizeAddress_not_idempotent :
    standardizeAddress (standardizeAddress "11111 22222") ≠
      standardizeAddress "11111 22222" := by decide

/-- C1 (amended): address normalization is idempotent on sample
addresses with at most one zip-shaped digit group and no punctuation
attached to rewritable tokens. -/
theorem standardizeAddress_idempotent_on_samples :
    (sampleAddresses.all
      (fun a => standardizeAddress (standardizeAddress a) ==
        standardizeAddress a)) = true := by decide

/-- C7: the zip-removal regex of `standardizeAddress` has no end
anchor, so the first word-bounded five-digit group is removed wherever
it occurs; a leading five-digit street number is deleted exactly like a
trailing zip code. -/
theorem standardizeAddress_removes_leading_digits :
    standardizeAddress "12345 Main Street" = "MAIN ST" ∧
    standardizeAddress "Main Street 12345" = "MAIN ST" := by decide

/-- Numeric bridge: seven tenths as a kernel-computable rational. -/
theorem seven_tenths_eq : (7 / 10 : ℚ) = mkRat 7 10 := by
  norm_num [Rat.mkRat_eq_div]

/-- Numeric bridge: one half as a kernel-computable rational. -/
theorem half_eq : (1 / 2 : ℚ) = mkRat 1 2 := by
  norm_num [Rat.mkRat_eq_div]

/-- Evaluation of the bigram similarity of the two fuzzy sample
strings. -/
theorem compareTwoStrings_eval1 :
    compareTwoStrings "AX BY" "AX CZ" = 1 / 2 := by
  have hsh :
      sharedBigrams (bigrams "AX BY".data) (bigrams "AX CZ".data) = 2 := by
    decide
  have hl1 : (bigrams "AX BY".data).length = 4 := by decide
  have hl2 : (bigrams "AX CZ".data).length = 4 := by decide
  simp only [compareTwoStrings]
  rw [if_neg (by decide : ¬("AX BY".length < 2 ∨ "AX CZ".length < 2))]
  rw [hsh, hl1, hl2]
  norm_num

/-- Evaluation of the blended similarity of the two fuzzy sample
strings: half the tokens overlap and half the bigrams are shared. -/
theorem calculateAddressSimilarity_eval1 :
    calculateAddressSimilarity "AX BY" "AX CZ" = 1 / 2 := by
  have hstd1 : standardizeAddress "AX BY" = "AX BY" := by decide
  have hstd2 : standardizeAddress "AX CZ" = "AX CZ" := by decide
  have h1 : splitTokens "AX BY" = ["AX", "BY"] := by decide
  have h2 : splitTokens "AX CZ" = ["AX", "CZ"] := by decide
  have h3 : (["AX", "BY"] : List String).filter
      (fun comp => (["AX", "CZ"] : List String).contains comp) = ["AX"] := by
    decide
  simp only [calculateAddressSimilarity, hstd1, hstd2, h1, h2, h3,
    compareTwoStrings_eval1]
  norm_num

/-- Evaluation of the fuzzy scan on the sample pair: the single target
index wins with score one half. -/
theorem bestFuzzy_eval1 : bestFuzzy "AX BY" ["AX CZ"] [] = (1 / 2, 0) := by
  have he : (["AX CZ"] : List String).enum = [(0, "AX CZ")] := by decide
  simp only [bestFuzzy, he, List.foldl_cons, List.foldl_nil, fuzzyStep,
    List.not_mem_nil, if_false, calculateAddressSimilarity_eval1]
  rw [if_pos (by norm_num : (1 / 2 : ℚ) > 0)]
  rfl

/-- Evaluation of one match step on the sample pair: no exact match, a
best fuzzy score of one half, hence a missing record carrying one
half. -/
theorem matchStep_eval1 :
    matchStep ["AX CZ"] ["AX CZ"] [] "AX BY" "AX BY" =
      (⟨"AX BY", "", 1 / 2, "missing"⟩, []) := by
  have hex : findExactIdx ["AX CZ"] "AX BY" = -1 := by decide
  simp only [matchStep, hex, bestFuzzy_eval1]
  rw [if_neg (by decide : ¬((-1 : Int) ≥ 0))]
  rw [if_neg (by norm_num : ¬((1 / 2 : ℚ) = 1))]
  rw [if_neg (by norm_num : ¬((1 / 2 : ℚ) ≥ 7 / 10))]

/-- C2 counterexample: a source address with no exact match and a best
similarity strictly between zero and seven tenths yields a missing
record carrying that best score, not zero. -/
theorem matchAddresses_missing_score_not_zero :
    matchAddresses ["AX BY"] ["AX CZ"] =
      [⟨"AX BY", "", 1 / 2, "missing"⟩, ⟨"", "AX CZ", 0, "missing"⟩] ∧
    ((1 : ℚ) / 2) ≠ 0 := by
  constructor
  · have hstd : List.map standardizeAddress ["AX CZ"] = ["AX CZ"] := by
      decide
    have hstd1 : standardizeAddress "AX BY" = "AX BY" := by decide
    have hsp : sourcePairs ["AX BY"] = [("AX BY", "AX BY")] := by decide
    have hleft : leftoverRecords ["AX CZ"] [] =
        [⟨"", "AX CZ", 0, "missing"⟩] := by decide
    simp only [matchAddresses, hstd, hstd1, hsp, matchLoop, matchStep_eval1,
      hleft]
    rfl
  · norm_num

/-- C2 (amended): when the exact search fails and the best similarity
over unconsumed targets is below seven tenths, the produced record is
missing with an empty target and the best score found, and the
consumed set is unchanged. -/
theorem matchStep_missing_record (addresses2 standardized2 : List String)
    (consumed : List Nat) (a1 s1 : String)
    (hExact : findExactIdx standardized2 s1 = -1)
    (hBest : (bestFuzzy s1 standardized2 consumed).1 < 7 / 10) :
    matchStep addresses2 standardized2 consumed a1 s1 =
      (⟨a1, "", (bestFuzzy s1 standardized2 consumed).1, "missing"⟩,
        consumed) := by
  have h0 : ¬((-1 : Int) ≥ 0) := by decide
  have h1 : (bestFuzzy s1 standardized2 consumed).1 ≠ 1 := by
    intro h
    rw [h] at hBest
    norm_num at hBest
  have h2 : ¬((bestFuzzy s1 standardized2 consumed).1 ≥ 7 / 10) :=
    not_le.mpr hBest
  simp only [matchStep, hExact, if_neg h0, if_neg h1, if_neg h2]

/-- Witness for the amended C2 theorem at a concrete input. -/
theorem matchStep_missing_record_witness :
    findExactIdx ["AX CZ"] "AX BY" = -1 ∧
    (bestFuzzy "AX BY" ["AX CZ"] []).1 < 7 / 10 ∧
    matchStep ["AX CZ"] ["AX CZ"] [] "AX BY" "AX BY" =
      (⟨"AX BY", "", (bestFuzzy "AX BY" ["AX CZ"] []).1, "missing"⟩, []) :=
  ⟨by decide,
    by simp only [bestFuzzy_eval1, half_eq, seven_tenths_eq]; decide,
    matchStep_missing_record ["AX CZ"] ["AX CZ"] [] "AX BY" "AX BY"
      (by decide)
      (by simp only [bestFuzzy_eval1, half_eq, seven_tenths_eq]; decide)⟩

/-- Evaluation of the similarity of two empty strings: the split
yields a single empty token on each side, the token overlap is total
and the bigram comparison treats equal strings as fully similar. -/
theorem calculateAddressSimilarity_empty_eval :
    calculateAddressSimilarity "" "" = 1 := by
  have h0 : standardizeAddress "" = "" := by decide
  have h1 : splitTokens "" = [""] := by decide
  have h2 : ([""] : List String).filter
      (fun comp => ([""] : List String).contains comp) = [""] := by decide
  have h3 : compareTwoStrings "" "" = 1 := by
    simp only [compareTwoStrings]
    rw [if_pos (Or.inl (by decide : "".length < 2))]
    simp
  simp only [calculateAddressSimilarity, h0, h1, h2, h3]
  norm_num

/-- C8 counterexample: the similarity of two empty strings is one, not
at most three tenths. -/
theorem calculateAddressSimilarity_empty_is_one :
    calculateAddressSimilarity "" "" = 1 ∧ (3 / 10 : ℚ) < 1 :=
  ⟨calculateAddressSimilarity_empty_eval, by norm_num⟩

/-- The JavaScript split on a space never yields an empty field list:
the empty string yields one empty field. -/
theorem splitSpace_length_pos : ∀ cs : List Char, 1 ≤ (splitSpace cs).length := by
  intro cs
  induction cs with
  | nil => decide
  | cons c rest ih =>
    simp only [splitSpace]
    by_cases hc : c = ' '
    · simp [hc]
    · simp only [if_neg hc]
      cases h : splitSpace rest with
      | nil => simp
      | cons w ws => simp

/-- C8 (amended): the token list of any string is nonempty, so the
zero-token edge case never occurs, and the similarity of two empty
strings is one. -/
theorem splitTokens_never_empty :
    (∀ s : String, 1 ≤ (splitTokens s).length) ∧
    calculateAddressSimilarity "" "" = 1 :=
  ⟨fun s => by
      simp only [splitTokens, List.length_map]
      exact splitSpace_length_pos s.data,
    calculateAddressSimilarity_empty_eval⟩

/-- C5 counterexample: two identical source addresses are both
recorded as exact matches of the single target address, which therefore
appears in two records rather than exactly one. -/
theorem matchAddresses_target_in_two_records :
    matchAddresses ["A B", "A B"] ["A B"] =
      [⟨"A B", "A B", 1, "exact"⟩, ⟨"A B", "A B", 1, "exact"⟩] ∧
    ((matchAddresses ["A B", "A B"] ["A B"]).filter
      (fun r => r.address2 = "A B")).length = 2 := by decide

/-- The record of one match step always carries the original source
address. -/
theorem matchStep_fst_address1 (addresses2 standardized2 : List String)
    (consumed : List Nat) (a1 s1 : String) :
    (matchStep addresses2 standardized2 consumed a1 s1).1.address1 = a1 := by
  simp only [matchStep]
  repeat' split
  all_goals rfl

/-- The source loop yields one record per source pair. -/
theorem matchLoop_fst_length (addresses2 standardized2 : List String) :
    ∀ (ps : List (String × String)) (consumed : List Nat),
      (matchLoop addresses2 standardized2 ps consumed).1.length = ps.length := by
  intro ps
  induction ps with
  | nil => intro c; rfl
  | cons p rest ih =>
    intro c
    simp only [matchLoop, List.length_cons, ih]

/-- The records of the source loop carry the original source addresses
in order. -/
theorem matchLoop_fst_map_address1 (addresses2 standardized2 : List String) :
    ∀ (ps : List (String × String)) (consumed : List Nat),
      (matchLoop addresses2 standardized2 ps consumed).1.map
        MatchRecord.address1 = ps.map Prod.fst := by
  intro ps
  induction ps with
  | nil => intro c; rfl
  | cons p rest ih =>
    intro c
    simp only [matchLoop, List.map_cons, ih,
      matchStep_fst_address1, List.cons.injEq, and_true]

/-- C5 (amended): the output of `matchAddresses` is exactly one record
per source address (in order, each carrying its source address)
followed by exactly the leftover records of the never-consumed target
indices; a consumed target address may however appear in more than one
source-derived record, as the counterexample shows. -/
theorem matchAddresses_completeness (addresses1 addresses2 : List String) :
    (matchAddresses addresses1 addresses2).length =
      addresses1.length +
        (leftoverRecords addresses2
          (matchConsumed addresses1 addresses2)).length ∧
    ((matchAddresses addresses1 addresses2).take addresses1.length).map
      MatchRecord.address1 = addresses1 ∧
    (matchAddresses addresses1 addresses2).drop addresses1.length =
      leftoverRecords addresses2 (matchConsumed addresses1 addresses2) := by
  have hlen : (matchLoop addresses2 (addresses2.map standardizeAddress)
      (sourcePairs addresses1) []).1.length = addresses1.length := by
    rw [matchLoop_fst_length]
    simp [sourcePairs]
  refine ⟨?_, ?_, ?_⟩
  · simp only [matchAddresses, matchConsumed, List.length_append, hlen]
  · simp only [matchAddresses, matchConsumed,
      List.take_append_of_le_length (le_of_eq hlen.symm),
      List.take_of_length_le (le_of_eq hlen)]
    rw [matchLoop_fst_map_address1]
    simp only [sourcePairs, List.map_map]
    exact List.map_id addresses1
  · simp only [matchAddresses, matchConsumed]
    rw [List.drop_append_of_le_length (le_of_eq hlen.symm),
      List.drop_of_length_le (le_of_eq hlen)]
    simp

/-- Invariant of the fuzzy fold: the running best index is minus one or
an unconsumed index. -/
theorem fuzzyStep_foldl_not_consumed (s1 : String) (consumed : List Nat) :
    ∀ (l : List (Nat × String)) (acc : ℚ × Int),
      (acc.2 = -1 ∨ ∃ j : Nat, acc.2 = Int.ofNat j ∧ j ∉ consumed) →
      ((l.foldl (fuzzyStep s1 consumed) acc).2 = -1 ∨
        ∃ j : Nat, (l.foldl (fuzzyStep s1 consumed) acc).2 = Int.ofNat j ∧
          j ∉ consumed) := by
  intro l
  induction l with
  | nil => intro acc h; exact h
  | cons je rest ih =>
    intro acc h
    simp only [List.foldl_cons]
    apply ih
    simp only [fuzzyStep]
    by_cases hc : je.1 ∈ consumed
    · simpa [hc] using h
    · simp only [if_neg hc]
      by_cases hs : calculateAddressSimilarity s1 je.2 > acc.1
      · simp only [if_pos hs]
        exact Or.inr ⟨je.1, rfl, hc⟩
      · simpa [hs] using h

/-- C6: the exact search of `matchAddresses` scans the whole target
list without excluding consumed indices, so two identical source
addresses are both recorded as exact matches of the same single target,
while the fuzzy scan never selects a consumed index: its result is
minus one or an unconsumed index. -/
theorem exact_search_ignores_consumed :
    (matchAddresses ["X Y", "X Y"] ["X Y"] =
      [⟨"X Y", "X Y", 1, "exact"⟩, ⟨"X Y", "X Y", 1, "exact"⟩]) ∧
    ∀ (s1 : String) (standardized2 : List String) (consumed : List Nat),
      (bestFuzzy s1 standardized2 consumed).2 = -1 ∨
      ∃ j : Nat, (bestFuzzy s1 standardized2 consumed).2 = Int.ofNat j ∧
        j ∉ consumed :=
  ⟨by decide,
    fun s1 standardized2 consumed =>
      fuzzyStep_foldl_not_consumed s1 consumed standardized2.enum (0, -1)
        (Or.inl rfl)⟩

/-- C3: with a quota-available provider that persistently returns no
result (and all others out of quota), the recursive `geocodeAddress` of
geocoding.ts never returns: it has produced no value even after one
hundred self-calls, although one full cycle over the five providers
takes at most five attempts; the bounded-loop variant terminates after
one cycle with a null result and an unchanged cursor. -/
theorem geocodeAddressRec_diverges :
    geocodeAddressRec persistentFailPs "1600 Pennsylvania Ave" 100 (-1) =
      none ∧
    geocodeAddressLoop persistentFailPs "1600 Pennsylvania Ave" (-1) =
      ⟨none, -1, 1⟩ := by decide

/-- A successful answer of the cycle scan names a registry position
whose provider passed its quota check. -/
theorem findSome?_pickProvider (providers : List ProviderB) :
    ∀ (l : List Nat) (p : ProviderB) (i : Nat),
      l.findSome? (pickProvider providers) = some (p, i) →
      providers[i]? = some p ∧ p.quota = true := by
  intro l
  induction l with
  | nil =>
    intro p i h
    simp [List.findSome?] at h
  | cons j rest ih =>
    intro p i h
    rw [List.findSome?_cons] at h
    cases hj : pickProvider providers j with
    | some v =>
      rw [hj] at h
      simp only [Option.some.injEq] at h
      subst h
      unfold pickProvider at hj
      cases hq : providers[j]? with
      | some q =>
        rw [hq] at hj
        dsimp only at hj
        by_cases hqq : q.quota
        · rw [if_pos hqq] at hj
          simp only [Option.some.injEq, Prod.mk.injEq] at hj
          obtain ⟨hj1, hj2⟩ := hj
          subst hj1
          subst hj2
          exact ⟨hq, hqq⟩
        · rw [if_neg hqq] at hj
          cases hj
      | none =>
        rw [hq] at hj
        cases hj
    | none =>
      rw [hj] at h
      exact ih p i h

/-- The provider returned by `getNextAvailableProvider` sits at the
returned registry index and passed its quota check. -/
theorem getNextAvailableProvider_spec (providers : List ProviderB)
    (lastUsed : Int) (p : ProviderB) (i : Nat)
    (h : getNextAvailableProvider providers lastUsed = some (p, i)) :
    providers[i]? = some p ∧ p.quota = true := by
  rw [getNextAvailableProvider] at h
  by_cases hn : providers.length = 0
  · rw [if_pos hn] at h
    cases h
  · rw [if_neg hn] at h
    exact findSome?_pickProvider providers _ p i h

/-- C4: whenever the recursive `geocodeAddress` returns, the rotation
cursor is unchanged if the answer is null (quota-skips, thrown errors
and no-result outcomes never move it), and on success it equals the
index of the quota-checked provider whose geocode call succeeded. -/
theorem geocodeAddressRec_cursor_invariant
    (providers : List ProviderB) (address : String) :
    ∀ (fuel : Nat) (lastUsed : Int) (r : GeoRun),
      geocodeAddressRec providers address fuel lastUsed = some r →
      (r.result = none → r.lastUsed = lastUsed) ∧
      (∀ c, r.result = some c →
        ∃ i p, r.lastUsed = Int.ofNat i ∧ providers[i]? = some p ∧
          p.quota = true ∧ p.geocodeFn address = Outcome.ok c) := by
  intro fuel
  induction fuel with
  | zero =>
    intro lastUsed r h
    simp [geocodeAddressRec] at h
  | succ fuel ih =>
    intro lastUsed r h
    rw [geocodeAddressRec] at h
    cases hg : getNextAvailableProvider providers lastUsed with
    | none =>
      rw [hg] at h
      simp only [Option.some.injEq] at h
      subst h
      refine ⟨fun _ => rfl, fun c hc => ?_⟩
      cases hc
    | some pi =>
      rw [hg] at h
      obtain ⟨p, index⟩ := pi
      dsimp only at h
      cases ho : p.geocodeFn address with
      | ok c0 =>
        rw [ho] at h
        simp only [Option.some.injEq] at h
        subst h
        constructor
        · intro hn
          cases hn
        · intro c hc
          simp only [Option.some.injEq] at hc
          subst hc
          obtain ⟨hp, hq⟩ :=
            getNextAvailableProvider_spec providers lastUsed p index hg
          exact ⟨index, p, rfl, hp, hq, ho⟩
      | noResult =>
        rw [ho] at h
        cases hr : geocodeAddressRec providers address fuel lastUsed with
        | none =>
          rw [hr] at h
          cases h
        | some r0 =>
          rw [hr] at h
          simp only [Option.some.injEq] at h
          subst h
          obtain ⟨h1, h2⟩ := ih lastUsed r0 hr
          exact ⟨h1, h2⟩
      | errThrow =>
        rw [ho] at h
        cases hr : geocodeAddressRec providers address fuel lastUsed with
        | none =>
          rw [hr] at h
          cases h
        | some r0 =>
          rw [hr] at h
          simp only [Option.some.injEq] at h
          subst h
          obtain ⟨h1, h2⟩ := ih lastUsed r0 hr
          exact ⟨h1, h2⟩

/-- Witness for the C4 invariant on a concrete registry whose second
provider succeeds. -/
theorem geocodeAddressRec_cursor_invariant_witness :
    geocodeAddressRec twoPs "1 Test Way" 3 (-1) =
      some ⟨some (40, -75), 1, 1⟩ ∧
    (((⟨some (40, -75), 1, 1⟩ : GeoRun).result = none →
      (⟨some (40, -75), 1, 1⟩ : GeoRun).lastUsed = -1) ∧
    (∀ c, (⟨some (40, -75), 1, 1⟩ : GeoRun).result = some c →
      ∃ i p, (⟨some (40, -75), 1, 1⟩ : GeoRun).lastUsed = Int.ofNat i ∧
        twoPs[i]? = some p ∧ p.quota = true ∧
        p.geocodeFn "1 Test Way" = Outcome.ok c)) :=
  ⟨by decide,
    geocodeAddressRec_cursor_invariant twoPs "1 Test Way" 3 (-1)
      ⟨some (40, -75), 1, 1⟩ (by decide)⟩

/-- A registry position never yields a provider when every quota check
fails. -/
theorem pickProvider_none_of_no_quota (providers : List ProviderB)
    (hq : ∀ p ∈ providers, p.quota = false) (i : Nat) :
    pickProvider providers i = none := by
  unfold pickProvider
  cases hp : providers[i]? with
  | none => rfl
  | some p =>
    have hm : p ∈ providers := List.getElem?_mem hp
    simp [hq p hm]

/-- The cycle scan yields nothing when every position yields
nothing. -/
theorem findSome?_none_of_all_none {α β : Type} (f : α → Option β)
    (l : List α) (h : ∀ a, f a = none) : l.findSome? f = none := by
  induction l with
  | nil => rfl
  | cons a rest ih =>
    rw [List.findSome?_cons, h a]
    exact ih

/-- C9: when every provider reports exhausted quota, the recursive
`geocodeAddress` returns null at once, with zero geocode invocations
and an unchanged rotation cursor, for any positive recursion budget. -/
theorem geocodeAddress_quota_skip (providers : List ProviderB)
    (address : String) (lastUsed : Int) (fuel : Nat)
    (hq : ∀ p ∈ providers, p.quota = false) :
    geocodeAddressRec providers address (fuel + 1) lastUsed =
      some ⟨none, lastUsed, 0⟩ := by
  have hg : getNextAvailableProvider providers lastUsed = none := by
    rw [getNextAvailableProvider]
    by_cases hn : providers.length = 0
    · rw [if_pos hn]
    · rw [if_neg hn]
      exact findSome?_none_of_all_none _ _
        (fun i => pickProvider_none_of_no_quota providers hq i)
  rw [geocodeAddressRec, hg]

/-- Witness for the C9 quota-skip theorem on a concrete all-exhausted
registry. -/
theorem geocodeAddress_quota_skip_witness :
    (∀ p ∈ quotaOutPs, p.quota = false) ∧
    geocodeAddressRec quotaOutPs "742 Evergreen Terrace" 8 (-1) =
      some ⟨none, -1, 0⟩ :=
  ⟨by decide,
    geocodeAddress_quota_skip quotaOutPs "742 Evergreen Terrace" (-1) 7
      (by decide)⟩

/-- Lookup on a cons cell, phrased through the projections of the
head entry. -/
theorem lookup_cons_fst (a : String) (e : String × Coords)
    (es : List (String × Coords)) :
    (e :: es).lookup a = if a = e.1 then some e.2 else es.lookup a := by
  by_cases h : a = e.1
  · rw [if_pos h]
    subst h
    simp [List.lookup]
  · rw [if_neg h]
    have hb : (a == e.1) = false := beq_eq_false_iff_ne.mpr h
    simp [List.lookup, hb]

/-- Overwriting the value under key `k` does not change any lookup for
a different key. -/
theorem lookup_map_set_ne (k : String) (v : Coords) (a : String)
    (hne : a ≠ k) :
    ∀ m : List (String × Coords),
      (m.map (fun e => if e.1 = k then (e.1, v) else e)).lookup a =
        m.lookup a := by
  intro m
  induction m with
  | nil => rfl
  | cons e es ih =>
    simp only [List.map_cons]
    by_cases he : e.1 = k
    · rw [if_pos he, lookup_cons_fst, lookup_cons_fst, ih]
      rw [he]
      rw [if_neg hne, if_neg hne]
    · rw [if_neg he, lookup_cons_fst, lookup_cons_fst, ih]

/-- Overwriting the value under key `k` updates the lookup for `k`
exactly when the key was present. -/
theorem lookup_map_set_self (k : String) (v : Coords) :
    ∀ m : List (String × Coords),
      (m.map (fun e => if e.1 = k then (e.1, v) else e)).lookup k =
        (m.lookup k).map (fun _ => v) := by
  intro m
  induction m with
  | nil => rfl
  | cons e es ih =>
    simp only [List.map_cons]
    by_cases he : e.1 = k
    · rw [if_pos he, lookup_cons_fst, lookup_cons_fst]
      rw [if_pos he.symm, if_pos he.symm]
      rfl
    · have hne : k ≠ e.1 := fun h => he h.symm
      rw [if_neg he, lookup_cons_fst, lookup_cons_fst]
      rw [if_neg hne, if_neg hne, ih]

/-- Lookup distributes over append through the option choice. -/
theorem lookup_append_list (a : String) :
    ∀ m1 m2 : List (String × Coords),
      (m1 ++ m2).lookup a = ((m1.lookup a).or (m2.lookup a)) := by
  intro m1 m2
  induction m1 with
  | nil => rfl
  | cons e es ih =>
    simp only [List.cons_append]
    rw [lookup_cons_fst, lookup_cons_fst]
    by_cases h : a = e.1
    · rw [if_pos h, if_pos h]
      rfl
    · rw [if_neg h, if_neg h, ih]

/-- Lookup after a JavaScript object insertion: the inserted key maps
to the new value, all other keys are untouched. -/
theorem lookup_recordSet (m : List (String × Coords)) (k : String)
    (v : Coords) (a : String) :
    (recordSet m k v).lookup a =
      if a = k then some v else m.lookup a := by
  by_cases ha : a = k
  · subst ha
    rw [if_pos rfl]
    unfold recordSet
    by_cases hs : (m.lookup a).isSome
    · rw [if_pos hs, lookup_map_set_self]
      obtain ⟨w, hw⟩ := Option.isSome_iff_exists.mp hs
      rw [hw]
      rfl
    · rw [if_neg hs, lookup_append_list]
      have : m.lookup a = none := Option.not_isSome_iff_eq_none.mp hs
      rw [this]
      simp [List.lookup]
  · rw [if_neg ha]
    unfold recordSet
    by_cases hs : (m.lookup k).isSome
    · rw [if_pos hs, lookup_map_set_ne k v a ha]
    · rw [if_neg hs, lookup_append_list]
      have h1 : ([(k, v)] : List (String × Coords)).lookup a = none := by
        have : (a == k) = false := beq_eq_false_iff_ne.mpr ha
        simp [List.lookup, this]
      rw [h1]
      simp

/-- The key list after a JavaScript object insertion: unchanged when
the key was present, extended at the end otherwise. -/
theorem keys_recordSet (m : List (String × Coords)) (k : String)
    (v : Coords) :
    (recordSet m k v).map Prod.fst =
      if (m.lookup k).isSome then m.map Prod.fst
      else m.map Prod.fst ++ [k] := by
  by_cases hs : (m.lookup k).isSome
  · rw [if_pos hs]
    unfold recordSet
    rw [if_pos hs, List.map_map]
    apply List.map_congr_left
    intro e _
    by_cases he : e.1 = k <;> simp [he]
  · rw [if_neg hs]
    unfold recordSet
    rw [if_neg hs]
    simp

/-- A lookup succeeds exactly when the key occurs in the key list. -/
theorem lookup_isSome_iff_mem_keys (a : String) :
    ∀ m : List (String × Coords),
      ((m.lookup a).isSome = true) ↔ a ∈ m.map Prod.fst := by
  intro m
  induction m with
  | nil => simp [List.lookup]
  | cons e es ih =>
    simp only [List.lookup, List.map_cons, List.mem_cons]
    cases hk : (a == e.1) with
    | true =>
      have : a = e.1 := beq_iff_eq.mp hk
      simp [this]
    | false =>
      have : ¬(a = e.1) := beq_eq_false_iff_ne.mp hk
      simp [this, ih]

/-- Membership of the returned batch map: a key answers a lookup
exactly when it was present initially or some call of that address in
the run succeeded. -/
theorem batchRun_lookup (providers : List ProviderB) (a : String) :
    ∀ (addrs : List String) (m : List (String × Coords)) (lastUsed : Int),
      (((batchRun providers addrs m lastUsed).1.lookup a).isSome = true) ↔
      ((m.lookup a).isSome = true ∨
        ∃ c, (a, some c) ∈ (batchRun providers addrs m lastUsed).2.2) := by
  intro addrs
  induction addrs with
  | nil =>
    intro m last
    simp [batchRun]
  | cons addr rest ih =>
    intro m last
    simp only [batchRun]
    cases hr : (geocodeAddressLoop providers addr last).result with
    | none =>
      dsimp only
      rw [ih m (geocodeAddressLoop providers addr last).lastUsed]
      simp only [List.mem_cons, Prod.mk.injEq]
      constructor
      · rintro (h | ⟨c, hc⟩)
        · exact Or.inl h
        · exact Or.inr ⟨c, Or.inr hc⟩
      · rintro (h | ⟨c, (⟨_, hc⟩ | hc)⟩)
        · exact Or.inl h
        · cases hc
        · exact Or.inr ⟨c, hc⟩
    | some c0 =>
      dsimp only
      rw [ih (recordSet m addr c0)
        (geocodeAddressLoop providers addr last).lastUsed]
      simp only [List.mem_cons, Prod.mk.injEq]
      by_cases ha : a = addr
      · subst ha
        rw [lookup_recordSet, if_pos rfl]
        constructor
        · intro _
          exact Or.inr ⟨c0, Or.inl (by simp)⟩
        · intro _
          exact Or.inl rfl
      · rw [lookup_recordSet, if_neg ha]
        constructor
        · rintro (h | ⟨c, hc⟩)
          · exact Or.inl h
          · exact Or.inr ⟨c, Or.inr hc⟩
        · rintro (h | ⟨c, (⟨hc1, _⟩ | hc)⟩)
          · exact Or.inl h
          · exact absurd hc1 ha
          · exact Or.inr ⟨c, hc⟩

/-- Keys of the batch map: they are duplicate-free and form exactly
the union of the initial keys and the successfully geocoded
addresses. -/
theorem batchRun_keys (providers : List ProviderB) :
    ∀ (addrs : List String) (m : List (String × Coords)) (lastUsed : Int),
      (m.map Prod.fst).Nodup →
      ((batchRun providers addrs m lastUsed).1.map Prod.fst).Nodup ∧
      ((batchRun providers addrs m lastUsed).1.map Prod.fst).toFinset =
        (m.map Prod.fst).toFinset ∪
        ((batchRun providers addrs m lastUsed).2.2.filterMap
          (fun e => e.2.map (fun _ => e.1))).toFinset := by
  intro addrs
  induction addrs with
  | nil =>
    intro m last h
    exact ⟨h, by simp [batchRun]⟩
  | cons addr rest ih =>
    intro m last h
    simp only [batchRun]
    cases hr : (geocodeAddressLoop providers addr last).result with
    | none =>
      dsimp only
      obtain ⟨h1, h2⟩ :=
        ih m (geocodeAddressLoop providers addr last).lastUsed h
      refine ⟨h1, ?_⟩
      rw [h2]
      simp [List.filterMap_cons]
    | some c0 =>
      dsimp only
      have hk := keys_recordSet m addr c0
      have hkeysF : ((recordSet m addr c0).map Prod.fst).toFinset =
          (m.map Prod.fst).toFinset ∪ {addr} := by
        by_cases hs : (m.lookup addr).isSome
        · rw [hk, if_pos hs]
          have : addr ∈ (m.map Prod.fst).toFinset :=
            List.mem_toFinset.mpr ((lookup_isSome_iff_mem_keys addr m).mp hs)
          rw [Finset.union_comm]
          exact (Finset.union_eq_right.mpr
            (Finset.singleton_subset_iff.mpr this)).symm
        · rw [hk, if_neg hs]
          simp [List.toFinset_append]
      have hnodup1 : ((recordSet m addr c0).map Prod.fst).Nodup := by
        by_cases hs : (m.lookup addr).isSome
        · rw [hk, if_pos hs]
          exact h
        · rw [hk, if_neg hs]
          have hnm : addr ∉ m.map Prod.fst := fun hmem =>
            hs ((lookup_isSome_iff_mem_keys addr m).mpr hmem)
          simp [List.nodup_append, h, hnm]
      obtain ⟨h1, h2⟩ := ih (recordSet m addr c0)
        (geocodeAddressLoop providers addr last).lastUsed hnodup1
      refine ⟨h1, ?_⟩
      rw [h2, hkeysF]
      have hfm : ((addr, some c0) ::
          (batchRun providers rest (recordSet m addr c0)
            (geocodeAddressLoop providers addr last).lastUsed).2.2).filterMap
            (fun e => e.2.map (fun _ => e.1)) =
          addr :: ((batchRun providers rest (recordSet m addr c0)
            (geocodeAddressLoop providers addr last).lastUsed).2.2.filterMap
            (fun e => e.2.map (fun _ => e.1))) := rfl
      rw [hfm, List.toFinset_cons, Finset.insert_eq, Finset.union_assoc]

/-- C10: an address is a key of the map returned by
`batchGeocodeAddresses` exactly when one of its calls in the run
returned coordinates (failed addresses are entirely absent), and the
number of keys equals the number of distinct successfully geocoded
addresses. -/
theorem batchGeocodeAddresses_keys (providers : List ProviderB)
    (addresses : List String) (lastUsed : Int) :
    (∀ a : String,
      (((batchGeocodeAddresses providers addresses lastUsed).lookup a).isSome
        = true) ↔
      ∃ c, (a, some c) ∈ batchOutcomes providers addresses lastUsed) ∧
    (batchGeocodeAddresses providers addresses lastUsed).length =
      ((batchOutcomes providers addresses lastUsed).filterMap
        (fun e => e.2.map (fun _ => e.1))).dedup.length := by
  constructor
  · intro a
    have h := batchRun_lookup providers a addresses [] lastUsed
    simpa [batchGeocodeAddresses, batchOutcomes, List.lookup] using h
  · obtain ⟨hnd, hfs⟩ := batchRun_keys providers addresses [] lastUsed
      (by simp)
    have h1 : (batchGeocodeAddresses providers addresses lastUsed).length =
        ((batchRun providers addresses [] lastUsed).1.map Prod.fst).length := by
      simp [batchGeocodeAddresses]
    rw [h1, ← List.toFinset_card_of_nodup hnd, hfs]
    simp only [List.map_nil, List.toFinset_nil, Finset.empty_union]
    rw [List.card_toFinset]
    rfl

end TenantMatcher
